import Mathlib

/-!
# Verification of the VB inference engine specification

The repository consists of two notebooks (`regression.ipynb`,
`fast_vb_lssm.ipynb`) that build probabilistic models from the nodes of an
external variational-Bayes library and run its inference engine.  The
inference algorithms themselves (mean-field VB scheduler, Gaussian-Markov
chain forward-backward update, rotation-based parameter expansion) are not
part of the repository source; the specification describes them as the
design the notebooks rely on.  This development embeds, over the rational
numbers, the pieces of that design the claims refer to: the rotation
transform written out in the notebook's markdown derivation, and
spec-modelled versions of the scheduler, the chain update, the observe
call and the rotation step.
-/

namespace VBEngine

/-! ## Rotation transform (from the derivation in `fast_vb_lssm.ipynb`)

The notebook derives the parameter-expansion transform
`C → C R⁻¹`, `X → R X` and states `y_n = C x_n = (C R⁻¹)(R x_n)`.
We embed the loading matrix `C` as an `M × D` matrix, the states `X` as a
`D × N` matrix and the rotation `R` as a `D × D` matrix, all over `ℚ`. -/

variable {M D N : ℕ}

/-- The transformed loading matrix `C · R⁻¹` of the parameter-expansion
step in `fast_vb_lssm.ipynb`; the inverse of the rotation is supplied
explicitly (the optimizer works with an invertible `R`). -/
def rotatedC (C : Matrix (Fin M) (Fin D) ℚ) (Rinv : Matrix (Fin D) (Fin D) ℚ) :
    Matrix (Fin M) (Fin D) ℚ :=
  C * Rinv

/-- The transformed state sequence `R · X` of the parameter-expansion
step in `fast_vb_lssm.ipynb`. -/
def rotatedX (R : Matrix (Fin D) (Fin D) ℚ) (X : Matrix (Fin D) (Fin N) ℚ) :
    Matrix (Fin D) (Fin N) ℚ :=
  R * X

/-- The observation-space expectation `C · X` computed by the `Dot` node
`F = Dot(C, X)` in `fast_vb_lssm.ipynb`. -/
def obsExpectation (C : Matrix (Fin M) (Fin D) ℚ) (X : Matrix (Fin D) (Fin N) ℚ) :
    Matrix (Fin M) (Fin N) ℚ :=
  C * X

end VBEngine

namespace VBEngine

/-- C1: for every invertible `D × D` rotation `R` (with two-sided inverse
`Rinv`), every loading matrix `C` and every state sequence `X`, the joint
transform `C → C·R⁻¹`, `X → R·X` leaves the observation-space expectation
`C·X` exactly unchanged. -/
theorem rotation_likelihood_invariant {M D N : ℕ}
    (C : Matrix (Fin M) (Fin D) ℚ) (X : Matrix (Fin D) (Fin N) ℚ)
    (R Rinv : Matrix (Fin D) (Fin D) ℚ) (hR : Rinv * R = 1) :
    obsExpectation (rotatedC C Rinv) (rotatedX R X) = obsExpectation C X := by
  unfold obsExpectation rotatedC rotatedX
  rw [Matrix.mul_assoc C Rinv (R * X), ← Matrix.mul_assoc Rinv R X, hR, Matrix.one_mul]

/-- Witness for C1 at a concrete invertible rotation. -/
theorem rotation_likelihood_invariant_witness :
    ((!![1, -1; 0, 1] : Matrix (Fin 2) (Fin 2) ℚ) * !![1, 1; 0, 1] = 1) ∧
      obsExpectation (rotatedC (!![2, 3; 4, 5] : Matrix (Fin 2) (Fin 2) ℚ) !![1, -1; 0, 1])
          (rotatedX !![1, 1; 0, 1] (!![1, 0; 0, 1] : Matrix (Fin 2) (Fin 2) ℚ)) =
        obsExpectation !![2, 3; 4, 5] !![1, 0; 0, 1] := by
  have hR : (!![1, -1; 0, 1] : Matrix (Fin 2) (Fin 2) ℚ) * !![1, 1; 0, 1] = 1 := by
    norm_num [Matrix.mul_fin_two, ← Matrix.one_fin_two]
  exact ⟨hR,
    rotation_likelihood_invariant !![2, 3; 4, 5] !![1, 0; 0, 1] !![1, 1; 0, 1]
      !![1, -1; 0, 1] hR⟩

end VBEngine

namespace VBEngine

/-! ## Mean-field VB update sweep (scheduler)

Modelled from the spec: the library node `VB.update` used by the
notebooks is not part of the repository source.  Per the spec, a sweep
visits latent nodes in the caller-specified order and, for each node,
replaces its variational posterior by the closed-form coordinate-ascent
step — the choice of that node's parameters maximizing the lower bound
with all other nodes held fixed. -/

variable {ι P : Type} [DecidableEq ι]

/-- Modelled from the spec: one full update sweep of the mean-field VB
scheduler.  `upd i s` is the closed-form coordinate update of node `i`
given the current posteriors `s`; the sweep applies it to each node of
`order` in sequence, each node seeing the fresh posteriors of the nodes
updated before it. -/
def sweep (upd : ι → (ι → P) → P) (order : List ι) (s : ι → P) : ι → P :=
  order.foldl (fun t i => Function.update t i (upd i t)) s

/-- C2: if every node update is a coordinate maximizer of the lower
bound (the conjugate-exponential closed-form step), then one full update
sweep never decreases the variational lower-bound objective. -/
theorem sweep_bound_nondecreasing (upd : ι → (ι → P) → P) (bound : (ι → P) → ℚ)
    (hupd : ∀ (i : ι) (t : ι → P) (p : P),
      bound (Function.update t i p) ≤ bound (Function.update t i (upd i t)))
    (order : List ι) (s : ι → P) :
    bound s ≤ bound (sweep upd order s) := by
  induction order generalizing s with
  | nil => exact le_refl _
  | cons i rest ih =>
    have hstep : bound s ≤ bound (Function.update s i (upd i s)) := by
      have h := hupd i s (s i)
      rwa [Function.update_eq_self] at h
    exact le_trans hstep (ih (Function.update s i (upd i s)))

/-- Witness for C2: a one-node model over `ℚ` with bound `-(s 0)²` whose
update maps the node to `0`, starting from the state constantly `7`. -/
theorem sweep_bound_nondecreasing_witness :
    (∀ (i : Fin 1) (t : Fin 1 → ℚ) (p : ℚ),
      (fun s : Fin 1 → ℚ => -(s 0)^2) (Function.update t i p) ≤
        (fun s : Fin 1 → ℚ => -(s 0)^2)
          (Function.update t i ((fun _ _ => (0:ℚ)) i t))) ∧
      (fun s : Fin 1 → ℚ => -(s 0)^2) (fun _ => (7:ℚ)) ≤
        (fun s : Fin 1 → ℚ => -(s 0)^2)
          (sweep (fun _ _ => (0:ℚ)) [0] (fun _ => (7:ℚ))) := by
  have hupd : ∀ (i : Fin 1) (t : Fin 1 → ℚ) (p : ℚ),
      (fun s : Fin 1 → ℚ => -(s 0)^2) (Function.update t i p) ≤
        (fun s : Fin 1 → ℚ => -(s 0)^2)
          (Function.update t i ((fun _ _ => (0:ℚ)) i t)) := by
    intro i t p
    have hup : ∀ (f : Fin 1 → ℚ) (x : ℚ), Function.update f i x 0 = x := by
      intro f x
      rw [show (0 : Fin 1) = i from Subsingleton.elim _ _, Function.update_same]
    simp only [hup]
    nlinarith [sq_nonneg p]
  exact ⟨hupd, sweep_bound_nondecreasing (fun _ _ => (0:ℚ))
    (fun s => -(s 0)^2) hupd [0] (fun _ => (7:ℚ))⟩

end VBEngine

namespace VBEngine

/-! ## Observation with a mask

Modelled from the spec: `Y.observe(y, mask=mask)` in the notebooks runs
library code that is not part of the repository source.  Per the spec,
the mask marks which entries participate in the likelihood; unmasked
entries are treated as absent, excluded from both the node's own update
and from contributing evidence to parents.  We embed the scalar Gaussian
case: an observed entry `y` under noise precision `τ` sends the natural
parameter message `(τ·y, -τ/2)` to its mean parent; a masked-out entry
sends nothing. -/

/-- Natural parameter message one observed Gaussian entry `y` with noise
precision `τ` sends to its mean parent: `(τ·y, -τ/2)`. -/
def entryMessage (τ y : ℚ) : ℚ × ℚ :=
  (τ * y, -(τ / 2))

/-- Modelled from the spec: total evidence an observed node passes to its
parent — the sum of the entry messages over exactly the entries whose
mask bit is `true`. -/
def maskedEvidence (τ : ℚ) : List ℚ → List Bool → ℚ × ℚ
  | [], _ => (0, 0)
  | _ :: _, [] => (0, 0)
  | y :: ys, b :: bs =>
    (if b then entryMessage τ y else (0, 0)) + maskedEvidence τ ys bs

/-- The likelihood evidence an unobserved latent node contributes to its
parent: none. -/
def latentEvidence : ℚ × ℚ :=
  (0, 0)

/-- A parent node's coordinate update: prior natural parameters plus the
evidence received from its (possibly masked) observed child. -/
def updateObserved (η0 : ℚ × ℚ) (τ : ℚ) (data : List ℚ) (mask : List Bool) : ℚ × ℚ :=
  η0 + maskedEvidence τ data mask

/-- The same parent update when the child is an unobserved latent node. -/
def updateUnobserved (η0 : ℚ × ℚ) : ℚ × ℚ :=
  η0 + latentEvidence

/-- C3: with a mask that is `false` at every entry, an observed node
contributes exactly the latent (zero) evidence to its parent, and the
parent's update is exactly the update it would perform were the child an
unobserved latent node. -/
theorem all_false_mask_as_unobserved (η0 : ℚ × ℚ) (τ : ℚ)
    (data : List ℚ) (mask : List Bool) (hmask : ∀ b ∈ mask, b = false) :
    maskedEvidence τ data mask = latentEvidence ∧
      updateObserved η0 τ data mask = updateUnobserved η0 := by
  have hev : maskedEvidence τ data mask = latentEvidence := by
    induction data generalizing mask with
    | nil => cases mask <;> rfl
    | cons y ys ih =>
      cases mask with
      | nil => rfl
      | cons b bs =>
        have hb : b = false := hmask b (List.mem_cons_self b bs)
        have hbs : ∀ b ∈ bs, b = false := fun c hc => hmask c (List.mem_cons_of_mem b hc)
        simp only [maskedEvidence, hb, if_neg Bool.false_ne_true, ih bs hbs,
          latentEvidence, Prod.mk_add_mk, add_zero]
  refine ⟨hev, ?_⟩
  unfold updateObserved updateUnobserved
  rw [hev]

/-- Witness for C3 at a concrete all-false mask. -/
theorem all_false_mask_as_unobserved_witness :
    (∀ b ∈ [false, false], b = false) ∧
      (maskedEvidence 1 [5, 7] [false, false] = latentEvidence ∧
        updateObserved (3, -2) 1 [5, 7] [false, false] = updateUnobserved (3, -2)) :=
  ⟨by decide, all_false_mask_as_unobserved (3, -2) 1 [5, 7] [false, false] (by decide)⟩

end VBEngine

namespace VBEngine

/-! ## Gaussian-Markov-chain forward-backward update

Modelled from the spec: the `GaussianMarkovChain` node used in
`fast_vb_lssm.ipynb` lives in the external library.  Per the spec, its
update is a forward-backward sweep that recomputes, from the current
moments of the Markov-blanket neighbours (initial-state prior, dynamics
matrix `A`, innovation precision and the observation messages), the
marginal posterior moments of every state and the joint moments of every
adjacent pair.  We embed the one-dimensional (`D = 1`) chain: the joint
posterior over the states is a Gaussian with a tridiagonal precision
matrix, and the sweep is the symmetric tridiagonal solve (forward
elimination of the pivots, then back substitution for the means,
variances and adjacent-pair covariances). -/

/-- Markov-blanket inputs of the chain update for a scalar chain:
initial-state prior mean `mu0` and precision `p0`, dynamics-matrix
moments `aMean = E[A]` and `aSq = E[A²]`, expected innovation precision
`q`, chain length `len`, and per-time observation messages in natural
parameters (`obsB n`, precision contribution `obsP n`). -/
structure ChainInputs where
  mu0 : ℚ
  p0 : ℚ
  aMean : ℚ
  aSq : ℚ
  q : ℚ
  len : ℕ
  obsB : ℕ → ℚ
  obsP : ℕ → ℚ

/-- Diagonal entry `n` of the tridiagonal posterior precision of the
chain: prior and dynamics contributions plus the observation message
precision. -/
def chainDiag (c : ChainInputs) (n : ℕ) : ℚ :=
  (if n = 0 then c.p0 + (if 2 ≤ c.len then c.q * c.aSq else 0)
   else if n + 1 = c.len then c.q
   else c.q + c.q * c.aSq) + c.obsP n

/-- Magnitude of the off-diagonal entries of the tridiagonal posterior
precision (the entries themselves are `-chainOff`). -/
def chainOff (c : ChainInputs) : ℚ :=
  c.q * c.aMean

/-- Linear coefficient `n` of the chain posterior in natural parameters. -/
def chainRhs (c : ChainInputs) (n : ℕ) : ℚ :=
  (if n = 0 then c.p0 * c.mu0 else 0) + c.obsB n

/-- Forward elimination: pivot at position `n` of the tridiagonal solve. -/
def dhat (c : ChainInputs) : ℕ → ℚ
  | 0 => chainDiag c 0
  | n + 1 => chainDiag c (n + 1) - (chainOff c) ^ 2 / dhat c n

/-- Forward elimination: reduced right-hand side at position `n`. -/
def hhat (c : ChainInputs) : ℕ → ℚ
  | 0 => chainRhs c 0
  | n + 1 => chainRhs c (n + 1) + chainOff c / dhat c n * hhat c n

/-- Back substitution for the smoothed means: `backMean c k` is the
posterior mean of state `len - 1 - k`, computed from the top of the
chain downwards. -/
def backMean (c : ChainInputs) : ℕ → ℚ
  | 0 => hhat c (c.len - 1) / dhat c (c.len - 1)
  | k + 1 =>
    (hhat c (c.len - 2 - k) + chainOff c * backMean c k) / dhat c (c.len - 2 - k)

/-- Backward recursion for the smoothed variances: `backVar c k` is the
posterior variance of state `len - 1 - k`. -/
def backVar (c : ChainInputs) : ℕ → ℚ
  | 0 => 1 / dhat c (c.len - 1)
  | k + 1 =>
    1 / dhat c (c.len - 2 - k) + (chainOff c / dhat c (c.len - 2 - k)) ^ 2 * backVar c k

/-- Smoothed posterior mean of state `n`. -/
def smoothedMean (c : ChainInputs) (n : ℕ) : ℚ :=
  backMean c (c.len - 1 - n)

/-- Smoothed posterior variance of state `n`. -/
def smoothedVar (c : ChainInputs) (n : ℕ) : ℚ :=
  backVar c (c.len - 1 - n)

/-- Smoothed posterior covariance of the adjacent pair `(n, n + 1)` —
the pairwise sufficient statistic the dynamics-matrix update needs. -/
def smoothedCross (c : ChainInputs) (n : ℕ) : ℚ :=
  chainOff c / dhat c n * smoothedVar c (n + 1)

/-- The chain posterior: marginal means and variances of every state and
covariances of every adjacent pair. -/
structure ChainPosterior where
  mean : ℕ → ℚ
  variance : ℕ → ℚ
  cross : ℕ → ℚ

/-- The full forward-backward sweep: recomputes the chain posterior from
the Markov-blanket inputs. -/
def forwardBackward (c : ChainInputs) : ChainPosterior :=
  { mean := smoothedMean c, variance := smoothedVar c, cross := smoothedCross c }

/-- A chain node holding its current posterior. -/
structure ChainNode where
  post : ChainPosterior

/-- One update of the chain node: the forward-backward sweep replaces
the stored posterior with the one recomputed from the neighbour moments. -/
def chainUpdate (c : ChainInputs) (node : ChainNode) : ChainNode :=
  { post := forwardBackward c }

/-- C4: the forward-backward update is idempotent — with the
Markov-blanket neighbour moments `c` unchanged between two consecutive
updates, the second update leaves the posterior marginal and pairwise
sufficient statistics exactly equal to those after the first (the first
update's result is a fixed point). -/
theorem chain_update_idempotent (c : ChainInputs) (node : ChainNode) :
    chainUpdate c (chainUpdate c node) = chainUpdate c node :=
  rfl

/-! ### Positive definiteness of the updated posterior parameters -/

/-- Marginal posterior precision of state `n` after the forward-backward
update: the inverse of the smoothed variance. -/
def marginalPrec (c : ChainInputs) (n : ℕ) : ℚ :=
  1 / (forwardBackward c).variance n

/-- Modelled from the spec: under the scalar rotation `X → r·X` the
posterior precision of a transformed Gaussian becomes `λ / r²` (the
one-dimensional case of `Λ → R⁻ᵀ Λ R⁻¹`). -/
def rotatedPrec (r lam : ℚ) : ℚ :=
  lam / r ^ 2

/-- Precision encoded by Gaussian natural parameters `(η₁, η₂)`:
`-2·η₂`. -/
def precOf (η : ℚ × ℚ) : ℚ :=
  -2 * η.2

/-- The forward-elimination pivots of a valid chain stay positive, and
away from the last position stay strictly above `q·E[A²]`. -/
theorem dhat_pos_aux (c : ChainInputs) (hp0 : 0 < c.p0) (hq : 0 < c.q)
    (ha : c.aMean ^ 2 ≤ c.aSq) (hobs : ∀ n, 0 ≤ c.obsP n) :
    ∀ n, (n + 2 ≤ c.len → c.q * c.aSq < dhat c n) ∧ (n + 1 ≤ c.len → 0 < dhat c n) := by
  have haSq : 0 ≤ c.aSq := le_trans (sq_nonneg _) ha
  have hqa : 0 ≤ c.q * c.aSq := mul_nonneg hq.le haSq
  intro n
  induction n with
  | zero =>
    have hobs0 := hobs 0
    have h0 : dhat c 0 = c.p0 + (if 2 ≤ c.len then c.q * c.aSq else 0) + c.obsP 0 := by
      simp [dhat, chainDiag]
    constructor
    · intro h2
      rw [h0, if_pos h2]
      linarith
    · intro _
      by_cases h2 : 2 ≤ c.len
      · rw [h0, if_pos h2]
        linarith
      · rw [h0, if_neg h2]
        linarith
  | succ n ih =>
    have key : n + 2 ≤ c.len → (chainOff c) ^ 2 / dhat c n < c.q := by
      intro hn
      have h1 : c.q * c.aSq < dhat c n := ih.1 hn
      have h2 : 0 < dhat c n := ih.2 (by omega)
      rw [div_lt_iff₀ h2]
      have e1 : (chainOff c) ^ 2 ≤ c.q * (c.q * c.aSq) := by
        unfold chainOff
        nlinarith [mul_nonneg (sq_nonneg c.q) (sub_nonneg.mpr ha)]
      nlinarith
    have hobsn := hobs (n + 1)
    have hdiag_mid : ¬ n + 1 + 1 = c.len →
        chainDiag c (n + 1) = c.q + c.q * c.aSq + c.obsP (n + 1) := by
      intro h
      unfold chainDiag
      rw [if_neg (Nat.succ_ne_zero n), if_neg h]
    have hdiag_last : n + 1 + 1 = c.len → chainDiag c (n + 1) = c.q + c.obsP (n + 1) := by
      intro h
      unfold chainDiag
      rw [if_neg (Nat.succ_ne_zero n), if_pos h]
    have part1 : n + 1 + 2 ≤ c.len → c.q * c.aSq < dhat c (n + 1) := by
      intro h3
      have hmid := hdiag_mid (by omega)
      have hk := key (by omega)
      have hd : dhat c (n + 1) =
          c.q + c.q * c.aSq + c.obsP (n + 1) - (chainOff c) ^ 2 / dhat c n := by
        simp only [dhat]
        rw [hmid]
      linarith
    refine ⟨part1, ?_⟩
    intro h2
    by_cases hlast : n + 1 + 1 = c.len
    · have hl := hdiag_last hlast
      have hk := key (by omega)
      have hd : dhat c (n + 1) = c.q + c.obsP (n + 1) - (chainOff c) ^ 2 / dhat c n := by
        simp only [dhat]
        rw [hl]
      linarith
    · have := part1 (by omega)
      linarith

/-- Every smoothed variance produced by the backward recursion of a
valid chain is positive. -/
theorem backVar_pos (c : ChainInputs) (hp0 : 0 < c.p0) (hq : 0 < c.q)
    (ha : c.aMean ^ 2 ≤ c.aSq) (hobs : ∀ n, 0 ≤ c.obsP n) (hlen : 1 ≤ c.len) :
    ∀ k, 0 < backVar c k := by
  have hdp : ∀ n, n + 1 ≤ c.len → 0 < dhat c n :=
    fun n h => (dhat_pos_aux c hp0 hq ha hobs n).2 h
  intro k
  induction k with
  | zero =>
    simp only [backVar]
    exact one_div_pos.mpr (hdp (c.len - 1) (by omega))
  | succ k ih =>
    simp only [backVar]
    have h1 : 0 < 1 / dhat c (c.len - 2 - k) :=
      one_div_pos.mpr (hdp (c.len - 2 - k) (by omega))
    have h2 : 0 ≤ (chainOff c / dhat c (c.len - 2 - k)) ^ 2 * backVar c k :=
      mul_nonneg (sq_nonneg _) ih.le
    linarith

/-- The precision component of a masked evidence message is never
positive when the noise precision is nonnegative. -/
theorem maskedEvidence_snd_nonpos (τ : ℚ) (hτ : 0 ≤ τ) :
    ∀ (data : List ℚ) (mask : List Bool), (maskedEvidence τ data mask).2 ≤ 0 := by
  intro data
  induction data with
  | nil =>
    intro mask
    cases mask <;> simp [maskedEvidence]
  | cons y ys ih =>
    intro mask
    cases mask with
    | nil => simp [maskedEvidence]
    | cons b bs =>
      have hrest := ih bs
      cases b with
      | false =>
        simp only [maskedEvidence, Bool.false_eq_true, if_false, Prod.snd_add]
        simpa using hrest
      | true =>
        simp only [maskedEvidence, if_true, Prod.snd_add, entryMessage]
        linarith

/-- C6: each posterior-mutating operation keeps the posterior parameters
in the family's parameter space — after the forward-backward chain
update every marginal precision is positive, an applied rotation keeps a
positive Gaussian precision positive, and a scheduler coordinate update
of a Gaussian node keeps the natural-parameter precision positive. -/
theorem updates_preserve_posdef (c : ChainInputs) (hp0 : 0 < c.p0) (hq : 0 < c.q)
    (ha : c.aMean ^ 2 ≤ c.aSq) (hobs : ∀ n, 0 ≤ c.obsP n) (hlen : 1 ≤ c.len)
    (r lam : ℚ) (hr : r ≠ 0) (hlam : 0 < lam)
    (η0 : ℚ × ℚ) (τ : ℚ) (data : List ℚ) (mask : List Bool)
    (hη : 0 < precOf η0) (hτ : 0 ≤ τ) :
    (∀ n, 0 < marginalPrec c n) ∧ 0 < rotatedPrec r lam ∧
      0 < precOf (updateObserved η0 τ data mask) := by
  refine ⟨?_, ?_, ?_⟩
  · intro n
    unfold marginalPrec forwardBackward smoothedVar
    exact one_div_pos.mpr (backVar_pos c hp0 hq ha hobs hlen _)
  · unfold rotatedPrec
    have hr2 : 0 < r ^ 2 :=
      lt_of_le_of_ne (sq_nonneg r) (Ne.symm (pow_ne_zero 2 hr))
    exact div_pos hlam hr2
  · unfold precOf updateObserved
    have hev := maskedEvidence_snd_nonpos τ hτ data mask
    unfold precOf at hη
    simp only [Prod.snd_add]
    nlinarith

/-- Witness for C6 at a concrete chain, rotation and Gaussian update. -/
theorem updates_preserve_posdef_witness :
    (0 < (1 : ℚ)) ∧ ((1 : ℚ) ^ 2 ≤ (1 : ℚ)) ∧ ((2 : ℚ) ≠ 0) ∧
      (0 < precOf ((0 : ℚ), (-1 : ℚ))) ∧
      ((∀ n, 0 < marginalPrec ⟨0, 1, 1, 1, 1, 3, fun _ => 0, fun _ => 1⟩ n) ∧
        0 < rotatedPrec 2 1 ∧
        0 < precOf (updateObserved ((0 : ℚ), (-1 : ℚ)) 1 [4] [true])) := by
  refine ⟨by norm_num, by norm_num, by norm_num, by norm_num [precOf], ?_⟩
  exact updates_preserve_posdef ⟨0, 1, 1, 1, 1, 3, fun _ => 0, fun _ => 1⟩
    (by norm_num) (by norm_num) (by norm_num) (fun n => by norm_num) (by norm_num)
    2 1 (by norm_num) (by norm_num) ((0 : ℚ), (-1 : ℚ)) 1 [4] [true]
    (by norm_num [precOf]) (by norm_num)

end VBEngine

namespace VBEngine

/-! ## Rejection of failed rotation steps

Modelled from the spec: `transformations.RotationOptimizer` and the
per-sweep hook `Q.callback = R.rotate` run library code that is not part
of the repository source.  Per the spec, if the optimization diverges or
the returned `R` is singular, the step is rejected, the pre-transform
posteriors are retained, and the failure is recovered locally (the
transform for that sweep is skipped) rather than surfaced as a fatal
error — accordingly the step below is a total function on the targeted
posteriors, with no error outcome. -/

/-- Outcome of the rotation-optimizer search: either the optimization
diverged, or it returned a candidate rotation matrix. -/
inductive RotationResult (d : ℕ) where
  | diverged : RotationResult d
  | found : Matrix (Fin d) (Fin d) ℚ → RotationResult d

/-- Posterior mean parameters of the nodes targeted by the rotation:
the loading matrix `C`, the states `X` and the dynamics matrix `A`. -/
structure RotationTargets (m d n : ℕ) where
  loadC : Matrix (Fin m) (Fin d) ℚ
  stateX : Matrix (Fin d) (Fin n) ℚ
  dynA : Matrix (Fin d) (Fin d) ℚ

/-- Adjugate-based matrix inverse (a computable form of `R⁻¹`). -/
def matInv {d : ℕ} (R : Matrix (Fin d) (Fin d) ℚ) : Matrix (Fin d) (Fin d) ℚ :=
  R.det⁻¹ • R.adjugate

/-- Modelled from the spec: apply one rotation step to the targeted
nodes.  A diverged optimization or a singular `R` rejects the transform
and keeps the pre-transform posteriors; otherwise the joint transform
`C → C·R⁻¹`, `X → R·X`, `A → R·A·R⁻¹` is applied. -/
def applyRotationStep {m d n : ℕ} (res : RotationResult d)
    (s : RotationTargets m d n) : RotationTargets m d n :=
  match res with
  | .diverged => s
  | .found R =>
    if R.det = 0 then s
    else
      { loadC := s.loadC * matInv R
        stateX := R * s.stateX
        dynA := R * s.dynA * matInv R }

/-- C5: whenever the rotation optimizer diverges or returns a singular
`R`, the rotation step leaves every targeted node's posterior parameters
exactly at their pre-transform values (and, being a total function with
no error outcome, the failure is never fatal). -/
theorem rotation_failure_atomic {m d n : ℕ} (res : RotationResult d)
    (s : RotationTargets m d n)
    (h : res = RotationResult.diverged ∨
      ∃ R, res = RotationResult.found R ∧ R.det = 0) :
    applyRotationStep res s = s := by
  rcases h with h | ⟨R, hres, hdet⟩
  · rw [h]
    rfl
  · rw [hres]
    simp only [applyRotationStep, if_pos hdet]

/-- Witness for C5 at a concrete singular rotation candidate. -/
theorem rotation_failure_atomic_witness :
    ((RotationResult.found !![0] : RotationResult 1) = RotationResult.diverged ∨
      ∃ R, (RotationResult.found !![0] : RotationResult 1) = RotationResult.found R ∧
        R.det = 0) ∧
      applyRotationStep (RotationResult.found !![0])
          (⟨!![2], !![3], !![4]⟩ : RotationTargets 1 1 1) =
        ⟨!![2], !![3], !![4]⟩ := by
  have h : (RotationResult.found !![0] : RotationResult 1) = RotationResult.diverged ∨
      ∃ R, (RotationResult.found !![0] : RotationResult 1) = RotationResult.found R ∧
        R.det = 0 := by
    right
    exact ⟨!![0], rfl, by simp [Matrix.det_fin_one]⟩
  exact ⟨h, rotation_failure_atomic _ _ h⟩

end VBEngine

namespace VBEngine

/-! ## The symmetric zero state under repeated sweeps

Modelled from the spec: the pitfall documented around
`C.initialize_from_random()` in `fast_vb_lssm.ipynb` — with symmetric
zero-mean priors, repeated updates without an explicit random
initialization stay stuck and learn nothing.  We embed the smallest
bilinear observation model with the notebook's structure, `y = c·x`
plus noise with precision `τ`, with scalar latent loading `c` (prior
precision `γ`) and scalar latent state `x` (prior precision `π`), and
the standard closed-form mean-field coordinate updates, `x` updated
before `c` as in the notebook. -/

/-- Variational posterior of a scalar Gaussian node, stored as mean and
variance. -/
structure GaussPost where
  mean : ℚ
  variance : ℚ
  deriving DecidableEq

/-- Posterior second moment `E[z²] = mean² + variance`. -/
def GaussPost.sq (g : GaussPost) : ℚ :=
  g.mean ^ 2 + g.variance

/-- Posteriors of the two latent nodes of the bilinear model. -/
structure BilinearState where
  postC : GaussPost
  postX : GaussPost
  deriving DecidableEq

/-- Coordinate update of the state node `x` given the current posterior
of `c`: precision `π + τ·E[c²]`, mean `τ·y·E[c]` over that precision. -/
def updateX (pi tau y : ℚ) (pc : GaussPost) : GaussPost :=
  { mean := tau * y * pc.mean / (pi + tau * pc.sq)
    variance := 1 / (pi + tau * pc.sq) }

/-- Coordinate update of the loading node `c` given the current
posterior of `x`: precision `γ + τ·E[x²]`, mean `τ·y·E[x]` over that
precision. -/
def updateC (ga tau y : ℚ) (px : GaussPost) : GaussPost :=
  { mean := tau * y * px.mean / (ga + tau * px.sq)
    variance := 1 / (ga + tau * px.sq) }

/-- One full sweep over the symmetric cycle: update `x` first, then `c`
against the fresh `x` posterior (the notebook's update order). -/
def bilinearSweep (ga pi tau y : ℚ) (s : BilinearState) : BilinearState :=
  let newX := updateX pi tau y s.postC
  { postC := updateC ga tau y newX, postX := newX }

/-- `k` repeated update sweeps. -/
def bilinearSweepIter (ga pi tau y : ℚ) : ℕ → BilinearState → BilinearState
  | 0, s => s
  | k + 1, s => bilinearSweepIter ga pi tau y k (bilinearSweep ga pi tau y s)

/-- The degenerate zero-variance, zero-mean posterior. -/
def degeneratePost : GaussPost :=
  ⟨0, 0⟩

/-- C7 counterexample: starting from the all-degenerate state, already
one update sweep leaves the degenerate posterior — the posterior of `x`
acquires the nonzero variance `1/π`, so the claim that the degenerate
posterior itself is a fixed point fails. -/
theorem degenerate_posterior_not_fixed_counterexample :
    bilinearSweep 1 1 1 1 ⟨degeneratePost, degeneratePost⟩ ≠
      ⟨degeneratePost, degeneratePost⟩ := by
  intro h
  have hv : (bilinearSweep 1 1 1 1 ⟨degeneratePost, degeneratePost⟩).postX.variance = 1 := by
    norm_num [bilinearSweep, updateX, updateC, GaussPost.sq, degeneratePost]
  rw [h] at hv
  norm_num [degeneratePost] at hv

/-- C7 (amended): the symmetric zero-mean state is a fixed point of the
posterior means — if every latent node's posterior mean is zero, then
after any number of update sweeps without a random initialization every
latent node's posterior mean is still zero (the model stays stuck and
learns nothing; the posterior variances, however, do change). -/
theorem zero_mean_state_fixed (ga pi tau y : ℚ) (s : BilinearState)
    (hc : s.postC.mean = 0) (hx : s.postX.mean = 0) (k : ℕ) :
    (bilinearSweepIter ga pi tau y k s).postC.mean = 0 ∧
      (bilinearSweepIter ga pi tau y k s).postX.mean = 0 := by
  induction k generalizing s with
  | zero => exact ⟨hc, hx⟩
  | succ k ih =>
    have hX : (updateX pi tau y s.postC).mean = 0 := by
      simp [updateX, hc]
    have hC : (updateC ga tau y (updateX pi tau y s.postC)).mean = 0 := by
      simp [updateC, hX]
    exact ih (bilinearSweep ga pi tau y s) hC hX

/-- Witness for the amended C7 at the concrete degenerate start. -/
theorem zero_mean_state_fixed_witness :
    ((degeneratePost.mean = 0 ∧ degeneratePost.mean = 0) ∧
      (bilinearSweepIter 1 1 1 1 3 ⟨degeneratePost, degeneratePost⟩).postC.mean = 0 ∧
        (bilinearSweepIter 1 1 1 1 3 ⟨degeneratePost, degeneratePost⟩).postX.mean = 0) :=
  ⟨⟨rfl, rfl⟩, zero_mean_state_fixed 1 1 1 1 ⟨degeneratePost, degeneratePost⟩ rfl rfl 3⟩

end VBEngine

namespace VBEngine

/-! ## Shape checking at `observe`

Modelled from the spec: the library's `Y.observe(y, mask=mask)` is not
part of the repository source.  Per the spec, `observe` fails if the
data's shape is incompatible with the node's declared shape/plates, and
a given mask must match the data's shape; shape errors are fatal and
surfaced immediately at the call. -/

/-- Declared shape of a node (plates followed by the event shape). -/
structure NodeDecl where
  shape : List ℕ
  deriving DecidableEq

/-- Shape of a supplied data array. -/
structure DataArray where
  shape : List ℕ
  deriving DecidableEq

/-- Errors the observe call can surface. -/
inductive ObserveError where
  | shapeMismatch : ObserveError
  deriving DecidableEq

/-- A node successfully bound to observed data. -/
structure ObservedBinding where
  node : NodeDecl
  data : DataArray
  mask : Option (List ℕ)
  deriving DecidableEq

/-- Modelled from the spec: `observe(node, data, mask)` — reject
immediately with a shape-mismatch error when the data's shape differs
from the node's declared shape, or when a given mask's shape differs
from the data's shape; otherwise bind the data to the node. -/
def observe (node : NodeDecl) (data : DataArray) (mask : Option (List ℕ)) :
    Except ObserveError ObservedBinding :=
  if data.shape ≠ node.shape then Except.error ObserveError.shapeMismatch
  else
    match mask with
    | none => Except.ok ⟨node, data, none⟩
    | some ms =>
      if ms ≠ data.shape then Except.error ObserveError.shapeMismatch
      else Except.ok ⟨node, data, some ms⟩

/-- C8: `observe` fails with a shape-mismatch error, surfaced at the
call itself, for every data array whose shape is incompatible with the
node's declared shape, and likewise whenever a given mask's shape does
not match the data's shape. -/
theorem observe_shape_mismatch (node : NodeDecl) (data : DataArray)
    (mask : Option (List ℕ)) :
    (data.shape ≠ node.shape →
      observe node data mask = Except.error ObserveError.shapeMismatch) ∧
      (∀ ms, mask = some ms → ms ≠ data.shape →
        observe node data mask = Except.error ObserveError.shapeMismatch) := by
  constructor
  · intro hne
    unfold observe
    rw [if_pos hne]
  · intro ms hms hne
    unfold observe
    rw [hms]
    by_cases hd : data.shape ≠ node.shape
    · rw [if_pos hd]
    · rw [if_neg hd]
      simp only [if_pos hne]

/-- Witness for C8: a concrete mismatched data shape and a concrete
mismatched mask shape both surface the error. -/
theorem observe_shape_mismatch_witness :
    (([3] : List ℕ) ≠ [2]) ∧
      observe ⟨[2]⟩ ⟨[3]⟩ none = Except.error ObserveError.shapeMismatch ∧
      observe ⟨[2]⟩ ⟨[2]⟩ (some [3]) = Except.error ObserveError.shapeMismatch :=
  ⟨by decide,
    (observe_shape_mismatch ⟨[2]⟩ ⟨[3]⟩ none).1 (by decide),
    (observe_shape_mismatch ⟨[2]⟩ ⟨[2]⟩ (some [3])).2 [3] rfl (by decide)⟩

end VBEngine

namespace VBEngine

/-! ## Immediate convergence with a single unobserved node

Modelled from the spec and `regression.ipynb`: in the joint
`GaussianGamma` variant the model has exactly one unobserved stochastic
node once `Y` is observed, and the notebook notes that `VB(Y, B_tau)`
then converges immediately to the exact posterior.  We embed the
conjugate normal-gamma family in natural parameters (the coefficients
of the sufficient statistics `(τb, τb², τ, log τ)`): a data point
`(x, y)` contributes `(x·y, -x²/2, -y²/2, 1/2)` to the likelihood, and
the variational coordinate update of the single latent node adds to the
prior the messages from the observed children, whose moments are the
observed constants. -/

/-- Natural parameters of the joint normal-gamma node. -/
def NGParams : Type :=
  ℚ × ℚ × ℚ × ℚ

instance : Add NGParams :=
  inferInstanceAs (Add (ℚ × ℚ × ℚ × ℚ))

instance : DecidableEq NGParams :=
  inferInstanceAs (DecidableEq (ℚ × ℚ × ℚ × ℚ))

/-- Exact likelihood contribution of the observed pair `(x, y)` to the
normal-gamma natural parameters. -/
def likContribution (x y : ℚ) : NGParams :=
  (x * y, -(x ^ 2 / 2), -(y ^ 2 / 2), 1 / 2)

/-- Message an observed child sends to the latent node, written in the
child's moments `E[y] = yMom1` and `E[y²] = yMom2`. -/
def childMessage (x yMom1 yMom2 : ℚ) : NGParams :=
  (x * yMom1, -(x ^ 2 / 2), -(yMom2 / 2), 1 / 2)

/-- The exact Bayesian posterior of the conjugate model: prior natural
parameters plus the likelihood contribution of every data point. -/
def truePosteriorNG (eta0 : NGParams) (pts : List (ℚ × ℚ)) : NGParams :=
  eta0 + pts.foldr (fun p acc => likContribution p.1 p.2 + acc) (0, 0, 0, 0)

/-- The VB coordinate update of the single unobserved node: prior plus
the messages of the observed children, whose moments are the observed
constants `E[y] = y`, `E[y²] = y²`; the node's current posterior plays
no role because no other node is latent. -/
def vbUpdateNG (eta0 : NGParams) (pts : List (ℚ × ℚ)) (cur : NGParams) : NGParams :=
  eta0 + pts.foldr (fun p acc => childMessage p.1 p.2 (p.2 ^ 2) + acc) (0, 0, 0, 0)

/-- `k` VB sweeps over the one-latent-node model. -/
def vbIterateNG (eta0 : NGParams) (pts : List (ℚ × ℚ)) : ℕ → NGParams → NGParams
  | 0, cur => cur
  | k + 1, cur => vbIterateNG eta0 pts k (vbUpdateNG eta0 pts cur)

/-- C10: with exactly one unobserved stochastic node, the first VB sweep
already produces the exact true posterior, and any number of further
sweeps leaves it unchanged, for every requested repeat count and every
starting posterior. -/
theorem single_latent_exact_and_stable (eta0 : NGParams) (pts : List (ℚ × ℚ))
    (k : ℕ) (cur : NGParams) :
    vbIterateNG eta0 pts (k + 1) cur = truePosteriorNG eta0 pts := by
  have hupd : ∀ c : NGParams, vbUpdateNG eta0 pts c = truePosteriorNG eta0 pts := by
    intro c
    rfl
  induction k generalizing cur with
  | zero =>
    simp only [vbIterateNG]
    exact hupd cur
  | succ k ih =>
    simp only [vbIterateNG] at ih ⊢
    exact ih (vbUpdateNG eta0 pts cur)

end VBEngine

namespace VBEngine

/-! ## The bounded update loop

Modelled from the spec: `Q.update(repeat=1000)` runs library code that
is not part of the repository source.  Per the spec, the call performs
up to the requested number of sweeps and stops early when the relative
change of the scalar lower-bound objective between consecutive sweeps
falls below the tolerance. -/

/-- Relative change of the scalar lower-bound objective between two
consecutive sweeps. -/
def relChange (oldB newB : ℚ) : ℚ :=
  |newB - oldB| / |oldB|

/-- Modelled from the spec: the update loop.  `step` is one full sweep,
`bnd` the scalar lower-bound objective; the loop performs up to `n`
sweeps and stops after the first sweep whose relative bound change is
below `tol`.  Returns the number of sweeps performed and the final
state. -/
def updateLoop {S : Type} (step : S → S) (bnd : S → ℚ) (tol : ℚ) : ℕ → S → ℕ × S
  | 0, s => (0, s)
  | n + 1, s =>
    let t := step s
    if relChange (bnd s) (bnd t) < tol then (1, t)
    else
      let r := updateLoop step bnd tol n t
      (r.1 + 1, r.2)

/-- C9: `updateLoop` terminates after at most `n` sweeps, performs at
least one sweep when one is requested, its final state is the performed
number of sweeps applied to the start state, and it stops early exactly
when the relative bound change falls below the tolerance — below it at
the stopping sweep, and not below it at any earlier sweep. -/
theorem updateLoop_spec {S : Type} (step : S → S) (bnd : S → ℚ) (tol : ℚ)
    (n : ℕ) (s : S) :
    (updateLoop step bnd tol n s).1 ≤ n ∧
      (1 ≤ n → 1 ≤ (updateLoop step bnd tol n s).1) ∧
      (updateLoop step bnd tol n s).2 = step^[(updateLoop step bnd tol n s).1] s ∧
      ((updateLoop step bnd tol n s).1 < n →
        relChange (bnd (step^[(updateLoop step bnd tol n s).1 - 1] s))
          (bnd (step^[(updateLoop step bnd tol n s).1] s)) < tol) ∧
      (∀ j, j + 1 < (updateLoop step bnd tol n s).1 →
        ¬ relChange (bnd (step^[j] s)) (bnd (step^[j + 1] s)) < tol) := by
  induction n generalizing s with
  | zero =>
    refine ⟨le_refl _, by omega, rfl, by omega, ?_⟩
    intro j hj
    simp only [updateLoop] at hj
    omega
  | succ n ih =>
    by_cases hstop : relChange (bnd s) (bnd (step s)) < tol
    · have hL : updateLoop step bnd tol (n + 1) s = (1, step s) := by
        simp only [updateLoop, if_pos hstop]
      rw [hL]
      refine ⟨by omega, fun _ => le_refl _, rfl, fun _ => ?_, fun j hj => by omega⟩
      simpa using hstop
    · have hL : updateLoop step bnd tol (n + 1) s =
          ((updateLoop step bnd tol n (step s)).1 + 1,
            (updateLoop step bnd tol n (step s)).2) := by
        simp only [updateLoop, if_neg hstop]
      obtain ⟨ih1, ih2, ih3, ih4, ih5⟩ := ih (step s)
      rw [hL]
      refine ⟨by omega, fun _ => by omega, ?_, ?_, ?_⟩
      · rw [Function.iterate_succ_apply]
        exact ih3
      · intro hlt
        have hr : (updateLoop step bnd tol n (step s)).1 < n := by omega
        have hr1 : 1 ≤ (updateLoop step bnd tol n (step s)).1 := ih2 (by omega)
        have h4 := ih4 hr
        have e1 : step^[(updateLoop step bnd tol n (step s)).1 - 1] (step s) =
            step^[(updateLoop step bnd tol n (step s)).1 + 1 - 1 - 1] (step s) := by
          have hc : (updateLoop step bnd tol n (step s)).1 - 1 =
              (updateLoop step bnd tol n (step s)).1 + 1 - 1 - 1 := by
            omega
          rw [hc]
        have e2 : step^[(updateLoop step bnd tol n (step s)).1 + 1 - 1 - 1] (step s) =
            step^[(updateLoop step bnd tol n (step s)).1 + 1 - 1] s := by
          rw [← Function.iterate_succ_apply]
          congr 1
          omega
        have e3 : step^[(updateLoop step bnd tol n (step s)).1] (step s) =
            step^[(updateLoop step bnd tol n (step s)).1 + 1] s := by
          rw [← Function.iterate_succ_apply]
        rw [e1, e2] at h4
        rw [e3] at h4
        simpa using h4
      · intro j hj
        match j with
        | 0 =>
          simpa using hstop
        | j + 1 =>
          have h5 := ih5 j (by omega)
          have e1 : step^[j] (step s) = step^[j + 1] s := by
            rw [← Function.iterate_succ_apply]
          have e2 : step^[j + 1] (step s) = step^[j + 1 + 1] s := by
            rw [← Function.iterate_succ_apply]
          rw [e1, e2] at h5
          exact h5

/-- Witness for C9: a concrete run whose bound moves from 4 to 2 on the
first sweep (relative change 1/2, not below the tolerance 1/4) and is
unchanged on the second (relative change 0): the loop stops after 2 of
the 5 requested sweeps, at a sweep whose relative change is below
tolerance. -/
theorem updateLoop_spec_witness :
    (updateLoop Nat.succ (fun k => if k = 0 then (4 : ℚ) else 2) (1 / 4) 5 0).1 ≤ 5 ∧
      (updateLoop Nat.succ (fun k => if k = 0 then (4 : ℚ) else 2) (1 / 4) 5 0).1 < 5 ∧
      relChange
          ((fun k => if k = 0 then (4 : ℚ) else 2)
            (Nat.succ^[(updateLoop Nat.succ
              (fun k => if k = 0 then (4 : ℚ) else 2) (1 / 4) 5 0).1 - 1] 0))
          ((fun k => if k = 0 then (4 : ℚ) else 2)
            (Nat.succ^[(updateLoop Nat.succ
              (fun k => if k = 0 then (4 : ℚ) else 2) (1 / 4) 5 0).1] 0)) < 1 / 4 := by
  have h := updateLoop_spec Nat.succ (fun k => if k = 0 then (4 : ℚ) else 2) (1 / 4) 5 0
  have hlt : (updateLoop Nat.succ (fun k => if k = 0 then (4 : ℚ) else 2) (1 / 4) 5 0).1 < 5 := by
    have hcount : (updateLoop Nat.succ
        (fun k => if k = 0 then (4 : ℚ) else 2) (1 / 4) 5 0).1 = 2 := by
      norm_num [updateLoop, relChange]
    omega
  exact ⟨h.1, hlt, h.2.2.2.1 hlt⟩

end VBEngine
